import Mathlib

/-!
Verification development for the LyapunovScheduler repository.

The embedding covers the scheduler implementation in LyapunovScheduler.h and
LyapunovScheduler.cc (the unnamed source file of the repository), and the
hybrid variant of the scheduler whose complete source listing is part of the
repository README (the tunable exponential-weight version with the
strict-priority score bonus).  Machine doubles are modelled as exact
rationals.  External collaborators of the scheduler (binder, AMC, buffer
maps, QFI context manager, grant executor) are modelled as explicit inputs,
following the external-interface contracts of the specification.
-/

namespace LyapunovScheduler

/-- QoS flow context.  The struct QfiContext is declared in
QfiContextManager.h, which is not among the source files.  Modelled from the
spec: static per-flow-class configuration consisting of the flow class
identifiers (qfi and fiveQi), the priority level (small integer, lower is
better), the delay budget in milliseconds, and the guaranteed-bit-rate flag,
exactly the fields the schedulers read. -/
structure QfiContext where
  qfi : ℕ
  fiveQi : ℕ
  priorityLevel : ℕ
  delayBudgetMs : ℕ
  isGbr : Bool
deriving DecidableEq

/-- Weight calculator of LyapunovScheduler.cc: the linear variant.
Multiplies a base weight of 1 by a 5QI factor, a GBR bonus, a priority
factor and a delay-budget step bonus, in source order. -/
def computeQosWeightFromContext (ctx : QfiContext) : ℚ :=
  let w0 : ℚ := 1
  let w1 := w0 * (10 - (ctx.fiveQi : ℚ) + 1)
  let w2 := if ctx.isGbr then w1 * 2 else w1
  let w3 := w2 * (10 / ((ctx.priorityLevel : ℚ) + 1))
  if ctx.delayBudgetMs ≤ 10 then w3 * 5
  else if ctx.delayBudgetMs ≤ 50 then w3 * 3
  else if ctx.delayBudgetMs ≤ 100 then w3 * (3 / 2)
  else w3

/-- Weight calculator of the hybrid scheduler listed in the README:
exponential priority scaling with priority base 2, a delay-budget step
bonus, and a GBR bonus, in source order. -/
def computeQosWeightFromContextHybrid (ctx : QfiContext) : ℚ :=
  let priorityBase : ℚ := 2
  let w1 : ℚ := 1 * priorityBase ^ (9 - (ctx.priorityLevel : ℤ))
  let w2 :=
    if ctx.delayBudgetMs ≤ 10 then w1 * 10
    else if ctx.delayBudgetMs ≤ 50 then w1 * 3
    else w1
  if ctx.isGbr then w2 * 2 else w2

/-- Interface of the QFI context manager singleton.  The class itself is in
QfiContextManager.h, which is not among the source files.  Modelled from the
spec: the QoS Context Directory maps a flow identifier to a QFI (negative
when no QFI is registered) and a QFI to an optional context. -/
structure QfiContextManager where
  getQfiForCid : ℕ → ℤ
  getContextByQfi : ℤ → Option QfiContext

/-- Context lookup of LyapunovScheduler.cc: returns nothing when the manager
is missing, when no QFI is registered for the connection identifier, or when
the manager has no context for the QFI. -/
def getQfiContextForCid (mgr : Option QfiContextManager) (cid : ℕ) :
    Option QfiContext :=
  match mgr with
  | none => none
  | some m =>
      let qfi := m.getQfiForCid cid
      if qfi < 0 then none
      else m.getContextByQfi qfi

/-- Transmission direction, as used by the schedulers. -/
inductive Direction where
  | DL
  | UL
  | D2D
  | D2DMULTI
deriving DecidableEq

/-- Framework constant NODEID_NONE; its numeric value is not part of the
source files and only equality tests matter. -/
def NODEID_NONE : ℕ := 0

/-- Framework constant for the D2D short BSR logical channel id; the
numeric value is not part of the source files and only equality matters. -/
def D2D_SHORT_BSR : ℕ := 1000

/-- Framework constant for the D2D multi short BSR logical channel id; the
numeric value is not part of the source files and only equality matters. -/
def D2D_MULTI_SHORT_BSR : ℕ := 1001

/-- Channel information returned by computeTxParams of the AMC
collaborator. -/
structure UserTxParams where
  cqiVector : List ℕ
  bands : List ℕ
  antennaSet : List ℕ
  layers : List ℕ

/-- Inputs of one scheduling pass of LyapunovScheduler.cc: the external
collaborators it queries, as functions, plus the random tie-break draw per
connection identifier. -/
structure Env where
  direction : Direction
  macCidToNodeId : ℕ → ℕ
  macCidToLcid : ℕ → ℕ
  getOmnetId : ℕ → ℕ
  computeTxParams : ℕ → Direction → UserTxParams
  allocatedCws : ℕ → ℕ
  readAvailableRbs : ℕ → ℕ → ℕ → ℕ
  computeBytesOnNRbs : ℕ → ℕ → ℕ → Direction → ℕ
  qfiMgr : Option QfiContextManager
  virtualBuffers : Option (List (ℕ × Option ℚ))
  perturbation : ℕ → ℚ

/-- Epsilon constant scoreEpsilon of the scheduler. -/
def scoreEpsilon : ℚ := 1 / 1000000

/-- Direction resolution of prepareSchedule: in uplink, the two D2D BSR
logical channels map to the D2D directions, anything else stays uplink;
in downlink everything is downlink. -/
def resolveDirection (env : Env) (cid : ℕ) : Direction :=
  if env.direction = Direction.UL then
    if env.macCidToLcid cid = D2D_SHORT_BSR then Direction.D2D
    else if env.macCidToLcid cid = D2D_MULTI_SHORT_BSR then Direction.D2DMULTI
    else Direction.UL
  else Direction.DL

/-- Accumulation of available resource blocks and bytes over the antenna
set and the bands, as in the nested loops of prepareSchedule. -/
def sumBlocksBytes (readRbs : ℕ → ℕ → ℕ) (compBytes : ℕ → ℕ → ℕ)
    (info : UserTxParams) : ℕ × ℕ :=
  info.antennaSet.foldl
    (fun acc antenna =>
      info.bands.foldl
        (fun acc2 band =>
          let blocks := readRbs antenna band
          (acc2.1 + blocks, acc2.2 + compBytes band blocks))
        acc)
    (0, 0)

/-- Queue backlog lookup of prepareSchedule: the workaround scans the BSR
virtual buffer map for the first entry keyed by the connection identifier
and reads its occupancy, with a null buffer pointer contributing zero. -/
def lookupBacklog : List (ℕ × Option ℚ) → ℕ → ℚ
  | [], _ => 0
  | (key, buf) :: rest, cid =>
      if key = cid then buf.getD 0
      else lookupBacklog rest cid

/-- Unresolvable network identity test of prepareSchedule: the node id is
NODEID_NONE or the omnet id is zero. -/
def flowBad (env : Env) (cid : ℕ) : Bool :=
  env.macCidToNodeId cid == NODEID_NONE ||
    env.getOmnetId (env.macCidToNodeId cid) == 0

/-- Direction of a flow in the current pass. -/
def flowDir (env : Env) (cid : ℕ) : Direction := resolveDirection env cid

/-- Channel information of a flow in the current pass. -/
def flowInfo (env : Env) (cid : ℕ) : UserTxParams :=
  env.computeTxParams (env.macCidToNodeId cid) (flowDir env cid)

/-- Available resource blocks of a flow in the current pass. -/
def flowBlocks (env : Env) (cid : ℕ) : ℕ :=
  (sumBlocksBytes (env.readAvailableRbs (env.macCidToNodeId cid))
    (fun band blocks =>
      env.computeBytesOnNRbs (env.macCidToNodeId cid) band blocks
        (flowDir env cid))
    (flowInfo env cid)).1

/-- Available bytes of a flow in the current pass. -/
def flowBytes (env : Env) (cid : ℕ) : ℕ :=
  (sumBlocksBytes (env.readAvailableRbs (env.macCidToNodeId cid))
    (fun band blocks =>
      env.computeBytesOnNRbs (env.macCidToNodeId cid) band blocks
        (flowDir env cid))
    (flowInfo env cid)).2

/-- QoS weight used by prepareSchedule: the computed weight when a context
is found, otherwise the neutral weight 1. -/
def flowQosWeight (env : Env) (cid : ℕ) : ℚ :=
  match getQfiContextForCid env.qfiMgr cid with
  | some ctx => computeQosWeightFromContext ctx
  | none => 1

/-- Queue backlog of a flow, read through the workaround scan. -/
def flowBacklog (env : Env) (cid : ℕ) : ℚ :=
  lookupBacklog (env.virtualBuffers.getD []) cid

/-- Instantaneous rate of a flow: available bytes per available block, zero
when no blocks are available. -/
def flowRate (env : Env) (cid : ℕ) : ℚ :=
  if 0 < flowBlocks env cid then
    (flowBytes env cid : ℚ) / (flowBlocks env cid : ℚ)
  else 0

/-- Score of a flow before the tie-break perturbation, as computed by
prepareSchedule: backlog times rate times QoS weight when both blocks and
backlog are positive, zero otherwise. -/
def flowBaseScore (env : Env) (cid : ℕ) : ℚ :=
  if 0 < flowBlocks env cid ∧ 0 < flowBacklog env cid then
    flowBacklog env cid * ((flowBytes env cid : ℚ) / (flowBlocks env cid : ℚ))
      * flowQosWeight env cid
  else 0

/-- Entry pushed into the priority queue for one connection identifier, or
nothing when one of the continue conditions of the gathering loop fires
after the identity check: unsupported direction, empty channel report, or
all codewords already allocated. -/
def scoredEntry (env : Env) (cid : ℕ) : Option (ℕ × ℚ) :=
  if flowBad env cid then none
  else
    let dir := flowDir env cid
    if dir ≠ Direction.UL ∧ dir ≠ Direction.DL then none
    else
      let info := flowInfo env cid
      if info.cqiVector.isEmpty || info.bands.isEmpty then none
      else if env.allocatedCws (env.macCidToNodeId cid) = info.layers.length
      then none
      else some (cid, flowBaseScore env cid + env.perturbation cid)

/-- Scheduler state: the authoritative active connection set, the working
copy, the per-carrier active set, and the granted-bytes bookkeeping map. -/
structure SchedState where
  activeConnectionSet : List ℕ
  activeConnectionTempSet : List ℕ
  carrierActiveConnectionSet : List ℕ
  grantedBytes : ℕ → ℕ

instance : Inhabited SchedState := ⟨⟨[], [], [], fun _ => 0⟩⟩

/-- Erasure of a connection identifier from a set. -/
def eraseCid (l : List ℕ) (cid : ℕ) : List ℕ := l.filter (fun x => x != cid)

/-- One iteration of the gathering loop of prepareSchedule: the
granted-bytes entry is zeroed, an unresolvable identity is erased from all
three sets, and otherwise the optional scored entry is produced. -/
def scoreOne (env : Env) (st : SchedState) (cid : ℕ) :
    SchedState × Option (ℕ × ℚ) :=
  let st0 : SchedState :=
    { st with grantedBytes := fun n => if n = cid then 0 else st.grantedBytes n }
  if flowBad env cid then
    ({ st0 with
        activeConnectionSet := eraseCid st0.activeConnectionSet cid,
        activeConnectionTempSet := eraseCid st0.activeConnectionTempSet cid,
        carrierActiveConnectionSet :=
          eraseCid st0.carrierActiveConnectionSet cid },
     none)
  else
    (st0, scoredEntry env cid)

/-- Gathering loop of prepareSchedule over a snapshot of the carrier active
connection set, returning the final state and the pushed scored entries in
iteration order. -/
def scoringLoop (env : Env) : List ℕ → SchedState → SchedState × List (ℕ × ℚ)
  | [], st => (st, [])
  | cid :: rest, st =>
      let step := scoreOne env st cid
      let restRes := scoringLoop env rest step.1
      (restRes.1,
        match step.2 with
        | some e => e :: restRes.2
        | none => restRes.2)

/-- Gathering phase of prepareSchedule: an absent BSR virtual buffer map
aborts the pass with the state untouched; otherwise the granted-bytes map
is cleared, the working copy is refreshed from the authoritative set, and
the gathering loop runs over the carrier active connection set. -/
def prepareSchedule (env : Env) (st : SchedState) :
    SchedState × List (ℕ × ℚ) :=
  match env.virtualBuffers with
  | none => (st, [])
  | some _ =>
      let st1 : SchedState :=
        { st with grantedBytes := fun _ => 0,
                  activeConnectionTempSet := st.activeConnectionSet }
      scoringLoop env st1.carrierActiveConnectionSet st1

/-- Ordering of the priority queue: higher score first. -/
def scoreRel (a b : ℕ × ℚ) : Prop := b.2 ≤ a.2

instance : DecidableRel scoreRel :=
  fun a b => inferInstanceAs (Decidable (b.2 ≤ a.2))

instance : IsTotal (ℕ × ℚ) scoreRel := ⟨fun a b => le_total b.2 a.2⟩

instance : IsTrans (ℕ × ℚ) scoreRel := ⟨fun _ _ _ h1 h2 => le_trans h2 h1⟩

/-- Abstraction of the std priority queue: the scored entries arranged in
non-increasing score order. -/
def buildQueue (l : List (ℕ × ℚ)) : List (ℕ × ℚ) := l.insertionSort scoreRel

/-- Answer of the grant executor to one requestGrant call. -/
structure GrantResponse where
  granted : ℕ
  terminate : Bool
  active : Bool
  eligible : Bool

/-- Signal on which the drain loop stops serving the current flow. -/
def stopSignal (r : GrantResponse) : Bool :=
  r.terminate || !r.active || !r.eligible

/-- Drain helper: accumulation of granted bytes for the served flow. -/
def accumulateGrant (st : SchedState) (cid g : ℕ) : SchedState :=
  { st with grantedBytes := fun n =>
      if n = cid then st.grantedBytes n + g else st.grantedBytes n }

/-- Erasure of an inactive flow from the working copy and the carrier set,
as done by the drain loop. -/
def drainErase (st : SchedState) (cid : ℕ) : SchedState :=
  { st with
      activeConnectionTempSet := eraseCid st.activeConnectionTempSet cid,
      carrierActiveConnectionSet :=
        eraseCid st.carrierActiveConnectionSet cid }

/-- Drain loop of prepareSchedule, with explicit fuel.  The executor is a
function from connection identifier and per-flow call count to a response.
Each iteration grants the top entry; on terminate the loop breaks, on a
flow reported inactive or ineligible the entry is popped, and an inactive
flow is erased from the working copy and the carrier set; otherwise the
same top entry is granted again.  The produced list records one event per
requestGrant call: identifier, score at grant time, and granted bytes. -/
def drainFuel (exec : ℕ → ℕ → GrantResponse) :
    ℕ → List (ℕ × ℚ) → (ℕ → ℕ) → SchedState →
      Option (SchedState × List (ℕ × ℚ × ℕ))
  | 0, _, _, _ => none
  | _ + 1, [], _, st => some (st, [])
  | fuel + 1, (cid, s) :: rest, calls, st =>
      let r := exec cid (calls cid)
      let st1 := accumulateGrant st cid r.granted
      let calls1 : ℕ → ℕ := fun n => if n = cid then calls cid + 1 else calls n
      if r.terminate then some (st1, [(cid, s, r.granted)])
      else if r.active && r.eligible then
        (drainFuel exec fuel ((cid, s) :: rest) calls1 st1).map
          (fun p => (p.1, (cid, s, r.granted) :: p.2))
      else
        (drainFuel exec fuel rest calls1
            (if r.active then st1 else drainErase st1 cid)).map
          (fun p => (p.1, (cid, s, r.granted) :: p.2))

/-- Commit of LyapunovScheduler.cc: the authoritative active connection set
is replaced by the working copy. -/
def commitSchedule (st : SchedState) : SchedState :=
  { st with activeConnectionSet := st.activeConnectionTempSet }

/-- One full scheduling pass: gather and score, drain the priority queue,
then commit the working copy. -/
def schedulePass (env : Env) (exec : ℕ → ℕ → GrantResponse) (fuel : ℕ)
    (st : SchedState) : Option (SchedState × List (ℕ × ℚ × ℕ)) :=
  let prep := prepareSchedule env st
  (drainFuel exec fuel (buildQueue prep.2) (fun _ => 0) prep.1).map
    (fun p => (commitSchedule p.1, p.2))

/-- Inputs of one scheduling pass of the hybrid scheduler listed in the
README.  The BSR virtual buffer map is consulted only in uplink; downlink
backlog comes from getDlQueueSize.  The exponents lyAlpha and lyBeta are
the tunable parameters (defaults 1). -/
structure HybridEnv where
  direction : Direction
  macCidToNodeId : ℕ → ℕ
  getOmnetId : ℕ → ℕ
  getDlQueueSize : ℕ → ℚ
  virtualBuffers : Option (List (ℕ × ℚ))
  computeTxParams : ℕ → Direction → UserTxParams
  readAvailableRbs : ℕ → ℕ → ℕ → ℕ
  computeBytesOnNRbs : ℕ → ℕ → ℕ → Direction → ℕ
  qfiMgr : Option QfiContextManager
  lyAlpha : ℕ
  lyBeta : ℕ
  perturbation : ℕ → ℚ

/-- Keyed lookup in the BSR virtual buffer map, as the hybrid scheduler
uses count and at. -/
def vbLookup : List (ℕ × ℚ) → ℕ → Option ℚ
  | [], _ => none
  | (key, v) :: rest, cid => if key = cid then some v else vbLookup rest cid

/-- Direction used by the hybrid scheduler: uplink when scheduling uplink,
downlink otherwise. -/
def hybridDir (env : HybridEnv) : Direction :=
  if env.direction = Direction.UL then Direction.UL else Direction.DL

/-- Queue backlog of a flow in the hybrid scheduler: downlink queue size in
downlink, BSR virtual buffer occupancy in uplink, zero when the map has no
entry for the connection identifier. -/
def hybridBacklog (env : HybridEnv) (cid : ℕ) : ℚ :=
  if hybridDir env = Direction.DL then env.getDlQueueSize cid
  else
    match env.virtualBuffers with
    | some vb =>
        match vbLookup vb cid with
        | some q => q
        | none => 0
    | none => 0

/-- Channel information of a flow in the hybrid scheduler. -/
def hybridInfo (env : HybridEnv) (cid : ℕ) : UserTxParams :=
  env.computeTxParams (env.macCidToNodeId cid) (hybridDir env)

/-- Available resource blocks and bytes of a flow in the hybrid
scheduler. -/
def hybridBlocksBytes (env : HybridEnv) (cid : ℕ) : ℕ × ℕ :=
  sumBlocksBytes (env.readAvailableRbs (env.macCidToNodeId cid))
    (fun band blocks =>
      env.computeBytesOnNRbs (env.macCidToNodeId cid) band blocks
        (hybridDir env))
    (hybridInfo env cid)

/-- Achievable rate of a flow in the hybrid scheduler. -/
def hybridRate (env : HybridEnv) (cid : ℕ) : ℚ :=
  if 0 < (hybridBlocksBytes env cid).1 then
    ((hybridBlocksBytes env cid).2 : ℚ) / ((hybridBlocksBytes env cid).1 : ℚ)
  else 0

/-- QoS weight of a flow in the hybrid scheduler: the exponential weight
when a context is found, otherwise the neutral weight 1. -/
def hybridWeight (env : HybridEnv) (cid : ℕ) : ℚ :=
  match getQfiContextForCid env.qfiMgr cid with
  | some ctx => computeQosWeightFromContextHybrid ctx
  | none => 1

/-- Strict-priority test of the hybrid scheduler: the flow has a context
and its QFI is 4 (URLLC). -/
def isStrictFlow (env : HybridEnv) (cid : ℕ) : Bool :=
  match getQfiContextForCid env.qfiMgr cid with
  | some ctx => ctx.qfi == 4
  | none => false

/-- Score of a flow in the hybrid scheduler before the strict-priority
bonus and the perturbation: backlog to the alpha, times rate, times weight
to the beta. -/
def hybridBaseScore (env : HybridEnv) (cid : ℕ) : ℚ :=
  hybridBacklog env cid ^ env.lyAlpha * hybridRate env cid
    * hybridWeight env cid ^ env.lyBeta

/-- Strict-priority score multiplier of the hybrid scheduler. -/
def strictPriorityMultiplier : ℚ := 10 ^ 12

/-- Final score of a flow in the hybrid scheduler: the base score, times
the strict-priority multiplier for QFI 4 flows, plus the perturbation. -/
def hybridFinalScore (env : HybridEnv) (cid : ℕ) : ℚ :=
  (if isStrictFlow env cid then
     hybridBaseScore env cid * strictPriorityMultiplier
   else hybridBaseScore env cid) + env.perturbation cid

/-- Entry pushed into the priority queue by the hybrid scheduler, or
nothing when one of its continue conditions fires: unresolvable identity,
zero backlog, empty channel report, or zero achievable rate. -/
def hybridScoredEntry (env : HybridEnv) (cid : ℕ) : Option (ℕ × ℚ) :=
  let nodeId := env.macCidToNodeId cid
  if nodeId = NODEID_NONE ∨ env.getOmnetId nodeId = 0 then none
  else if hybridBacklog env cid = 0 then none
  else
    let info := hybridInfo env cid
    if info.cqiVector.isEmpty || info.bands.isEmpty then none
    else if hybridRate env cid = 0 then none
    else some (cid, hybridFinalScore env cid)

/-- Scored entries of one hybrid gathering pass, in iteration order. -/
def hybridScoredList (env : HybridEnv) (carrier : List ℕ) : List (ℕ × ℚ) :=
  carrier.filterMap (hybridScoredEntry env)

/-- Order in which the hybrid drain loop serves the scored flows:
non-increasing final score. -/
def hybridDrainOrder (env : HybridEnv) (carrier : List ℕ) : List (ℕ × ℚ) :=
  (hybridScoredList env carrier).insertionSort scoreRel

/-! Helper lemmas about the embedding. -/

theorem scoredEntry_eq_some {env : Env} {cid : ℕ} {x : ℕ × ℚ}
    (h : scoredEntry env cid = some x) :
    x = (cid, flowBaseScore env cid + env.perturbation cid) := by
  unfold scoredEntry at h
  split_ifs at h <;> simp_all

theorem scoredEntry_of_bad {env : Env} {cid : ℕ}
    (h : flowBad env cid = true) : scoredEntry env cid = none := by
  unfold scoredEntry
  simp [h]

theorem eraseCid_subset (l : List ℕ) (cid : ℕ) : eraseCid l cid ⊆ l :=
  (List.filter_sublist l).subset

theorem not_mem_eraseCid (l : List ℕ) (cid : ℕ) : cid ∉ eraseCid l cid := by
  simp [eraseCid]

theorem mem_eraseCid_of_ne {l : List ℕ} {x cid : ℕ} (hx : x ∈ l)
    (hne : x ≠ cid) : x ∈ eraseCid l cid := by
  simp [eraseCid, hx, hne]

theorem scoreOne_fst_active (env : Env) (st : SchedState) (cid : ℕ) :
    (scoreOne env st cid).1.activeConnectionSet ⊆ st.activeConnectionSet := by
  by_cases hb : flowBad env cid <;>
    simp [scoreOne, hb, eraseCid_subset, List.Subset.refl]

theorem scoreOne_fst_temp (env : Env) (st : SchedState) (cid : ℕ) :
    (scoreOne env st cid).1.activeConnectionTempSet
      ⊆ st.activeConnectionTempSet := by
  by_cases hb : flowBad env cid <;>
    simp [scoreOne, hb, eraseCid_subset, List.Subset.refl]

theorem scoreOne_fst_carrier (env : Env) (st : SchedState) (cid : ℕ) :
    (scoreOne env st cid).1.carrierActiveConnectionSet
      ⊆ st.carrierActiveConnectionSet := by
  by_cases hb : flowBad env cid <;>
    simp [scoreOne, hb, eraseCid_subset, List.Subset.refl]

theorem scoringLoop_fst_cons (env : Env) (cid : ℕ) (rest : List ℕ)
    (st : SchedState) :
    (scoringLoop env (cid :: rest) st).1
      = (scoringLoop env rest (scoreOne env st cid).1).1 := rfl

theorem scoringLoop_active_subset (env : Env) :
    ∀ (l : List ℕ) (st : SchedState),
      (scoringLoop env l st).1.activeConnectionSet ⊆ st.activeConnectionSet := by
  intro l
  induction l with
  | nil => intro st; exact List.Subset.refl _
  | cons cid rest ih =>
      intro st
      rw [scoringLoop_fst_cons]
      exact (ih _).trans (scoreOne_fst_active env st cid)

theorem scoringLoop_temp_subset (env : Env) :
    ∀ (l : List ℕ) (st : SchedState),
      (scoringLoop env l st).1.activeConnectionTempSet
        ⊆ st.activeConnectionTempSet := by
  intro l
  induction l with
  | nil => intro st; exact List.Subset.refl _
  | cons cid rest ih =>
      intro st
      rw [scoringLoop_fst_cons]
      exact (ih _).trans (scoreOne_fst_temp env st cid)

theorem scoringLoop_carrier_subset (env : Env) :
    ∀ (l : List ℕ) (st : SchedState),
      (scoringLoop env l st).1.carrierActiveConnectionSet
        ⊆ st.carrierActiveConnectionSet := by
  intro l
  induction l with
  | nil => intro st; exact List.Subset.refl _
  | cons cid rest ih =>
      intro st
      rw [scoringLoop_fst_cons]
      exact (ih _).trans (scoreOne_fst_carrier env st cid)

theorem scoringLoop_snd (env : Env) :
    ∀ (l : List ℕ) (st : SchedState),
      (scoringLoop env l st).2 = l.filterMap (scoredEntry env) := by
  intro l
  induction l with
  | nil => intro st; rfl
  | cons cid rest ih =>
      intro st
      by_cases hb : flowBad env cid
      · have hnone : scoredEntry env cid = none := scoredEntry_of_bad hb
        simp [scoringLoop, scoreOne, hb, hnone, List.filterMap_cons, ih]
      · cases hse : scoredEntry env cid with
        | none => simp [scoringLoop, scoreOne, hb, hse, List.filterMap_cons, ih]
        | some e => simp [scoringLoop, scoreOne, hb, hse, List.filterMap_cons, ih]

theorem scoringLoop_good_active (env : Env) {x : ℕ}
    (hx : flowBad env x = false) :
    ∀ (l : List ℕ) (st : SchedState),
      x ∈ st.activeConnectionSet →
        x ∈ (scoringLoop env l st).1.activeConnectionSet := by
  intro l
  induction l with
  | nil => intro st hmem; exact hmem
  | cons cid rest ih =>
      intro st hmem
      rw [scoringLoop_fst_cons]
      refine ih _ ?_
      by_cases hb : flowBad env cid
      · have hne : x ≠ cid := by
          intro hxc
          rw [hxc] at hx
          exact absurd hb (by rw [hx]; exact Bool.false_ne_true)
        simp [scoreOne, hb]
        exact mem_eraseCid_of_ne hmem hne
      · simpa [scoreOne, hb] using hmem

theorem scoringLoop_bad_temp (env : Env) {x : ℕ}
    (hx : flowBad env x = true) :
    ∀ (l : List ℕ) (st : SchedState),
      x ∈ l → x ∉ (scoringLoop env l st).1.activeConnectionTempSet := by
  intro l
  induction l with
  | nil => intro st hmem; exact absurd hmem (List.not_mem_nil x)
  | cons cid rest ih =>
      intro st hmem
      rw [scoringLoop_fst_cons]
      rcases List.mem_cons.mp hmem with hxc | hxrest
      · subst hxc
        intro hcontra
        have hsub := scoringLoop_temp_subset env rest (scoreOne env st x).1
        have hmem2 := hsub hcontra
        have : (scoreOne env st x).1.activeConnectionTempSet
            = eraseCid st.activeConnectionTempSet x := by
          simp [scoreOne, hx]
        rw [this] at hmem2
        exact not_mem_eraseCid _ _ hmem2
      · exact ih _ hxrest

theorem scoringLoop_carrier_filter (env : Env) :
    ∀ (l : List ℕ) (st : SchedState),
      ∃ p : ℕ → Bool,
        (scoringLoop env l st).1.carrierActiveConnectionSet
          = st.carrierActiveConnectionSet.filter p
        ∧ ∀ x, p x = false → flowBad env x = true := by
  intro l
  induction l with
  | nil =>
      intro st
      exact ⟨fun _ => true, by simp [scoringLoop], fun x hx => absurd hx (by simp)⟩
  | cons cid rest ih =>
      intro st
      rw [scoringLoop_fst_cons]
      by_cases hb : flowBad env cid
      · obtain ⟨p, hp, hpm⟩ := ih (scoreOne env st cid).1
        have hcar : (scoreOne env st cid).1.carrierActiveConnectionSet
            = st.carrierActiveConnectionSet.filter (fun x => x != cid) := by
          simp [scoreOne, hb, eraseCid]
        rw [hcar] at hp
        rw [List.filter_filter] at hp
        refine ⟨fun x => p x && (x != cid), hp, ?_⟩
        intro x hx
        rcases Bool.and_eq_false_iff.mp hx with h1 | h1
        · exact hpm x h1
        · have : x = cid := by simpa using h1
          rw [this]; exact hb
      · obtain ⟨p, hp, hpm⟩ := ih (scoreOne env st cid).1
        have hcar : (scoreOne env st cid).1.carrierActiveConnectionSet
            = st.carrierActiveConnectionSet := by
          simp [scoreOne, hb]
        rw [hcar] at hp
        exact ⟨p, hp, hpm⟩

theorem drainFuel_spec (exec : ℕ → ℕ → GrantResponse) :
    ∀ (fuel : ℕ) (q : List (ℕ × ℚ)) (calls : ℕ → ℕ) (st : SchedState)
      (res : SchedState × List (ℕ × ℚ × ℕ)),
      drainFuel exec fuel q calls st = some res →
      res.1.activeConnectionSet = st.activeConnectionSet
      ∧ res.1.activeConnectionTempSet ⊆ st.activeConnectionTempSet
      ∧ (∀ e ∈ res.2, (e.1, e.2.1) ∈ q)
      ∧ (List.Sorted scoreRel q →
          List.Pairwise (fun a b : ℕ × ℚ × ℕ => b.2.1 ≤ a.2.1) res.2) := by
  intro fuel
  induction fuel with
  | zero =>
      intro q calls st res h
      simp [drainFuel] at h
  | succ fuel ih =>
      intro q calls st res h
      match q with
      | [] =>
          have hres : res = (st, []) := by
            have : some (st, []) = some res := by
              rw [← h]; rfl
            exact (Option.some.inj this).symm
          subst hres
          refine ⟨rfl, List.Subset.refl _, by simp, fun _ => List.Pairwise.nil⟩
      | (cid, s) :: rest =>
          rw [show drainFuel exec (fuel + 1) ((cid, s) :: rest) calls st
              = (let r := exec cid (calls cid);
                 let st1 := accumulateGrant st cid r.granted;
                 let calls1 : ℕ → ℕ :=
                   fun n => if n = cid then calls cid + 1 else calls n;
                 if r.terminate then some (st1, [(cid, s, r.granted)])
                 else if r.active && r.eligible then
                   (drainFuel exec fuel ((cid, s) :: rest) calls1 st1).map
                     (fun p => (p.1, (cid, s, r.granted) :: p.2))
                 else
                   (drainFuel exec fuel rest calls1
                       (if r.active then st1 else drainErase st1 cid)).map
                     (fun p => (p.1, (cid, s, r.granted) :: p.2)))
              from rfl] at h
          simp only at h
          by_cases ht : (exec cid (calls cid)).terminate
          · rw [if_pos ht] at h
            have hres := (Option.some.inj h).symm
            subst hres
            refine ⟨rfl, List.Subset.refl _, ?_, ?_⟩
            · intro e he
              rcases List.mem_singleton.mp he with rfl
              exact List.mem_cons_self _ _
            · intro _
              exact List.pairwise_singleton _ _
          · rw [if_neg ht] at h
            by_cases hae : (exec cid (calls cid)).active
                && (exec cid (calls cid)).eligible
            · rw [if_pos hae] at h
              rcases Option.map_eq_some'.mp h with ⟨p, hp, hpe⟩
              obtain ⟨hact, htmp, hmem, hpw⟩ := ih _ _ _ _ hp
              subst hpe
              refine ⟨hact, htmp, ?_, ?_⟩
              · intro e he
                rcases List.mem_cons.mp he with rfl | he2
                · exact List.mem_cons_self _ _
                · exact hmem e he2
              · intro hsorted
                refine List.Pairwise.cons ?_ (hpw hsorted)
                intro b hb
                have hbq := hmem b hb
                rcases List.mem_cons.mp hbq with hbh | hbr
                · have : b.2.1 = s := congrArg Prod.snd hbh
                  simp [this]
                · have := (List.sorted_cons.mp hsorted).1 _ hbr
                  simpa [scoreRel] using this
            · rw [if_neg hae] at h
              rcases Option.map_eq_some'.mp h with ⟨p, hp, hpe⟩
              obtain ⟨hact, htmp, hmem, hpw⟩ := ih _ _ _ _ hp
              subst hpe
              have hst2act :
                  (if (exec cid (calls cid)).active then
                      accumulateGrant st cid (exec cid (calls cid)).granted
                    else drainErase
                      (accumulateGrant st cid (exec cid (calls cid)).granted)
                      cid).activeConnectionSet = st.activeConnectionSet := by
                by_cases ha : (exec cid (calls cid)).active <;>
                  simp [ha, accumulateGrant, drainErase]
              have hst2tmp :
                  (if (exec cid (calls cid)).active then
                      accumulateGrant st cid (exec cid (calls cid)).granted
                    else drainErase
                      (accumulateGrant st cid (exec cid (calls cid)).granted)
                      cid).activeConnectionTempSet
                    ⊆ st.activeConnectionTempSet := by
                by_cases ha : (exec cid (calls cid)).active <;>
                  simp [ha, accumulateGrant, drainErase] <;>
                  exact eraseCid_subset _ _
              refine ⟨by rw [hact, hst2act], htmp.trans hst2tmp, ?_, ?_⟩
              · intro e he
                rcases List.mem_cons.mp he with rfl | he2
                · exact List.mem_cons_self _ _
                · exact List.mem_cons_of_mem _ (hmem e he2)
              · intro hsorted
                have hsr := List.sorted_cons.mp hsorted
                refine List.Pairwise.cons ?_ (hpw hsr.2)
                intro b hb
                have hbr := hmem b hb
                have := hsr.1 _ hbr
                simpa [scoreRel] using this

theorem drainFuel_total (exec : ℕ → ℕ → GrantResponse) (S : ℕ → ℕ) :
    ∀ (fuel : ℕ) (q : List (ℕ × ℚ)) (calls : ℕ → ℕ) (st : SchedState),
      (q.map Prod.fst).Nodup →
      (∀ c ∈ q.map Prod.fst, stopSignal (exec c (S c)) = true) →
      (∀ c ∈ q.map Prod.fst, calls c ≤ S c) →
      (q.map (fun e => S e.1 + 1 - calls e.1)).sum < fuel →
      (drainFuel exec fuel q calls st).isSome = true := by
  intro fuel
  induction fuel with
  | zero =>
      intro q calls st _ _ _ hlt
      exact absurd hlt (Nat.not_lt_zero _)
  | succ fuel ih =>
      intro q calls st hnd hstop hcalls hlt
      match q with
      | [] => rfl
      | (cid, s) :: rest =>
          rw [show drainFuel exec (fuel + 1) ((cid, s) :: rest) calls st
              = (let r := exec cid (calls cid);
                 let st1 := accumulateGrant st cid r.granted;
                 let calls1 : ℕ → ℕ :=
                   fun n => if n = cid then calls cid + 1 else calls n;
                 if r.terminate then some (st1, [(cid, s, r.granted)])
                 else if r.active && r.eligible then
                   (drainFuel exec fuel ((cid, s) :: rest) calls1 st1).map
                     (fun p => (p.1, (cid, s, r.granted) :: p.2))
                 else
                   (drainFuel exec fuel rest calls1
                       (if r.active then st1 else drainErase st1 cid)).map
                     (fun p => (p.1, (cid, s, r.granted) :: p.2)))
              from rfl]
          simp only
          have hcid : cid ∈ ((cid, s) :: rest).map Prod.fst :=
            List.mem_cons_self _ _
          have hkS : calls cid ≤ S cid := hcalls cid hcid
          have hndr : (rest.map Prod.fst).Nodup := by
            rw [List.map_cons] at hnd
            exact (List.nodup_cons.mp hnd).2
          have hcidrest : cid ∉ rest.map Prod.fst := by
            rw [List.map_cons] at hnd
            exact (List.nodup_cons.mp hnd).1
          by_cases ht : (exec cid (calls cid)).terminate
          · rw [if_pos ht]; rfl
          · rw [if_neg ht]
            by_cases hae : (exec cid (calls cid)).active
                && (exec cid (calls cid)).eligible
            · rw [if_pos hae]
              have hne : calls cid ≠ S cid := by
                intro heq
                have hsig := hstop cid hcid
                rw [← heq] at hsig
                unfold stopSignal at hsig
                rcases (Bool.and_eq_true _ _).mp hae with ⟨ha, he⟩
                rw [ha, he] at hsig
                simp at hsig
                exact ht hsig
              have hklt : calls cid < S cid := lt_of_le_of_ne hkS hne
              have hcalls1 : ∀ c ∈ ((cid, s) :: rest).map Prod.fst,
                  (fun n => if n = cid then calls cid + 1 else calls n) c
                    ≤ S c := by
                intro c hc
                by_cases hcc : c = cid
                · subst hcc
                  simp [Nat.succ_le_of_lt hklt]
                · simp [hcc]
                  exact hcalls c hc
              have hsum1 :
                  (((cid, s) :: rest).map
                      (fun e => S e.1 + 1 -
                        (fun n => if n = cid then calls cid + 1 else calls n)
                          e.1)).sum
                    < fuel := by
                have hrw :
                    (((cid, s) :: rest).map
                        (fun e => S e.1 + 1 -
                          (fun n => if n = cid then calls cid + 1 else calls n)
                            e.1)).sum
                      = (S cid + 1 - (calls cid + 1))
                        + (rest.map (fun e => S e.1 + 1 - calls e.1)).sum := by
                  rw [List.map_cons, List.sum_cons]
                  congr 1
                  · simp
                  · apply congrArg
                    apply List.map_congr_left
                    intro e he
                    have hne2 : e.1 ≠ cid := by
                      intro hcontra
                      exact hcidrest (hcontra ▸ List.mem_map_of_mem Prod.fst he)
                    simp [hne2]
                have hold :
                    (((cid, s) :: rest).map
                        (fun e => S e.1 + 1 - calls e.1)).sum
                      = (S cid + 1 - calls cid)
                        + (rest.map (fun e => S e.1 + 1 - calls e.1)).sum := by
                  rw [List.map_cons, List.sum_cons]
                have hterm : S cid + 1 - (calls cid + 1)
                    = (S cid + 1 - calls cid) - 1 := by omega
                have hpos : 1 ≤ S cid + 1 - calls cid := by omega
                rw [hrw, hterm]
                rw [hold] at hlt
                omega
              have := ih ((cid, s) :: rest)
                (fun n => if n = cid then calls cid + 1 else calls n)
                (accumulateGrant st cid (exec cid (calls cid)).granted)
                hnd hstop hcalls1 hsum1
              rcases Option.isSome_iff_exists.mp this with ⟨p, hp⟩
              rw [hp]
              rfl
            · rw [if_neg hae]
              have hstopr : ∀ c ∈ rest.map Prod.fst,
                  stopSignal (exec c (S c)) = true := by
                intro c hc
                exact hstop c (List.mem_cons_of_mem _ hc)
              have hcalls1 : ∀ c ∈ rest.map Prod.fst,
                  (fun n => if n = cid then calls cid + 1 else calls n) c
                    ≤ S c := by
                intro c hc
                have hne2 : c ≠ cid := fun hcontra => hcidrest (hcontra ▸ hc)
                simp [hne2]
                exact hcalls c (List.mem_cons_of_mem _ hc)
              have hsum1 :
                  (rest.map
                      (fun e => S e.1 + 1 -
                        (fun n => if n = cid then calls cid + 1 else calls n)
                          e.1)).sum
                    < fuel := by
                have hrw :
                    (rest.map
                        (fun e => S e.1 + 1 -
                          (fun n => if n = cid then calls cid + 1 else calls n)
                            e.1)).sum
                      = (rest.map (fun e => S e.1 + 1 - calls e.1)).sum := by
                  apply congrArg
                  apply List.map_congr_left
                  intro e he
                  have hne2 : e.1 ≠ cid := by
                    intro hcontra
                    exact hcidrest (hcontra ▸ List.mem_map_of_mem Prod.fst he)
                  simp [hne2]
                have hold :
                    (((cid, s) :: rest).map
                        (fun e => S e.1 + 1 - calls e.1)).sum
                      = (S cid + 1 - calls cid)
                        + (rest.map (fun e => S e.1 + 1 - calls e.1)).sum := by
                  rw [List.map_cons, List.sum_cons]
                rw [hold] at hlt
                rw [hrw]
                omega
              have := ih rest
                (fun n => if n = cid then calls cid + 1 else calls n)
                (if (exec cid (calls cid)).active then
                    accumulateGrant st cid (exec cid (calls cid)).granted
                  else drainErase
                    (accumulateGrant st cid (exec cid (calls cid)).granted)
                    cid)
                hndr hstopr hcalls1 hsum1
              rcases Option.isSome_iff_exists.mp this with ⟨p, hp⟩
              rw [hp]
              rfl

theorem buildQueue_sorted (l : List (ℕ × ℚ)) :
    List.Sorted scoreRel (buildQueue l) :=
  List.sorted_insertionSort scoreRel l

theorem mem_buildQueue {l : List (ℕ × ℚ)} {x : ℕ × ℚ} :
    x ∈ buildQueue l ↔ x ∈ l :=
  (List.perm_insertionSort scoreRel l).mem_iff

theorem prepareSchedule_snd_mem {env : Env} {st : SchedState} {x : ℕ × ℚ}
    (h : x ∈ (prepareSchedule env st).2) :
    x = (x.1, flowBaseScore env x.1 + env.perturbation x.1) := by
  unfold prepareSchedule at h
  cases hvb : env.virtualBuffers with
  | none => rw [hvb] at h; exact absurd h (List.not_mem_nil x)
  | some vb =>
      rw [hvb] at h
      simp only at h
      rw [scoringLoop_snd] at h
      rcases List.mem_filterMap.mp h with ⟨c, _, hc⟩
      have := scoredEntry_eq_some hc
      rw [this]

theorem filterMap_filter_of_none {β : Type} (f : ℕ → Option β)
    (p : ℕ → Bool) :
    ∀ l : List ℕ, (∀ x ∈ l, p x = false → f x = none) →
      (l.filter p).filterMap f = l.filterMap f := by
  intro l
  induction l with
  | nil => intro _; rfl
  | cons x rest ih =>
      intro hl
      have hrest : ∀ y ∈ rest, p y = false → f y = none := by
        intro y hy
        exact hl y (List.mem_cons_of_mem _ hy)
      by_cases hp : p x
      · rw [List.filter_cons_of_pos hp, List.filterMap_cons,
          List.filterMap_cons]
        cases hf : f x with
        | none => exact ih hrest
        | some b => rw [ih hrest]
      · have hfx : f x = none :=
          hl x (List.mem_cons_self _ _) (Bool.eq_false_iff.mpr hp)
        rw [List.filter_cons_of_neg hp, List.filterMap_cons, hfx]
        exact ih hrest

theorem computeQosWeightFromContext_eq (ctx : QfiContext) :
    computeQosWeightFromContext ctx =
      1 * (10 - (ctx.fiveQi : ℚ) + 1)
        * (if ctx.isGbr then 2 else 1)
        * (10 / ((ctx.priorityLevel : ℚ) + 1))
        * (if ctx.delayBudgetMs ≤ 10 then 5
           else if ctx.delayBudgetMs ≤ 50 then 3
           else if ctx.delayBudgetMs ≤ 100 then (3 : ℚ) / 2
           else 1) := by
  unfold computeQosWeightFromContext
  split_ifs <;> ring

theorem computeQosWeightFromContextHybrid_eq (ctx : QfiContext) :
    computeQosWeightFromContextHybrid ctx =
      1 * (2 : ℚ) ^ (9 - (ctx.priorityLevel : ℤ))
        * (if ctx.delayBudgetMs ≤ 10 then 10
           else if ctx.delayBudgetMs ≤ 50 then 3
           else 1)
        * (if ctx.isGbr then 2 else 1) := by
  unfold computeQosWeightFromContextHybrid
  split_ifs <;> ring

/-! Claim theorems. -/

/-- Claim C3: a QoS context with priority level 1, delay budget 5 ms and
the GBR flag produces, under the default constants of the exponential
weight calculator (priority base 2.0), the weight
2 to the power (9 - 1), times 10 for the delay bonus, times 2 for the GBR
bonus, which is 5120, whatever the flow class identifiers are. -/
theorem claim_c3 (q f : ℕ) :
    computeQosWeightFromContextHybrid ⟨q, f, 1, 5, true⟩ = 5120 := by
  simp only [computeQosWeightFromContextHybrid]
  norm_num

/-- Claim C4, counterexample: the weight calculator of LyapunovScheduler.cc
does not return a strictly positive weight for every QoS context; a context
with 5QI 12 makes the 5QI factor negative, and the returned weight for the
context with qfi 1, fiveQi 12, priority level 1, delay budget 100 and no
GBR flag is minus fifteen halves. -/
theorem claim_c4_counterexample :
    ¬ ∀ ctx : QfiContext, 0 < computeQosWeightFromContext ctx :=
  fun h => absurd (h ⟨1, 12, 1, 100, false⟩)
    (by simp only [computeQosWeightFromContext]; norm_num)

/-- Claim C4, amended: both weight calculators are pure functions of the
static QoS context alone, and they return a strictly positive weight for
every context whose 5QI is at most 10 in the linear variant, and for every
context whatsoever in the exponential variant of the README listing. -/
theorem claim_c4 :
    (∀ ctx : QfiContext, ctx.fiveQi ≤ 10 →
      0 < computeQosWeightFromContext ctx)
    ∧ (∀ ctx : QfiContext, 0 < computeQosWeightFromContextHybrid ctx) := by
  constructor
  · intro ctx h
    have hf : (ctx.fiveQi : ℚ) ≤ 10 := by exact_mod_cast h
    have h1 : (0 : ℚ) < 1 * (10 - (ctx.fiveQi : ℚ) + 1) := by linarith
    have h2 : (0 : ℚ) < 10 / ((ctx.priorityLevel : ℚ) + 1) := by positivity
    have h3 : (0 : ℚ) < (if ctx.isGbr then (2 : ℚ) else 1) := by
      split_ifs <;> norm_num
    have h4 : (0 : ℚ) <
        (if ctx.delayBudgetMs ≤ 10 then (5 : ℚ)
         else if ctx.delayBudgetMs ≤ 50 then 3
         else if ctx.delayBudgetMs ≤ 100 then (3 : ℚ) / 2
         else 1) := by
      split_ifs <;> norm_num
    rw [computeQosWeightFromContext_eq]
    exact mul_pos (mul_pos (mul_pos h1 h3) h2) h4
  · intro ctx
    have h1 : (0 : ℚ) < 1 * (2 : ℚ) ^ (9 - (ctx.priorityLevel : ℤ)) := by
      positivity
    have h2 : (0 : ℚ) <
        (if ctx.delayBudgetMs ≤ 10 then (10 : ℚ)
         else if ctx.delayBudgetMs ≤ 50 then 3
         else 1) := by
      split_ifs <;> norm_num
    have h3 : (0 : ℚ) < (if ctx.isGbr then (2 : ℚ) else 1) := by
      split_ifs <;> norm_num
    rw [computeQosWeightFromContextHybrid_eq]
    exact mul_pos (mul_pos h1 h2) h3

/-- Claim C4, witness: the amended theorem applied to two concrete
contexts. -/
theorem claim_c4_witness :
    0 < computeQosWeightFromContext ⟨1, 9, 1, 100, false⟩
    ∧ 0 < computeQosWeightFromContextHybrid ⟨1, 1, 1, 5, true⟩ :=
  ⟨claim_c4.1 ⟨1, 9, 1, 100, false⟩ (by decide),
   claim_c4.2 ⟨1, 1, 1, 5, true⟩⟩

/-- Concrete pass inputs for claim C1: one downlink flow with resolvable
identity, usable channel (three blocks, thirty bytes), no QoS context, and
a BSR entry reporting zero backlog; the tie-break draw is zero. -/
def envC1 : Env :=
  ⟨Direction.DL, fun _ => 1, fun _ => 0, fun _ => 1,
   fun _ _ => ⟨[1], [0], [0], [0, 0]⟩, fun _ => 0,
   fun _ _ _ => 3, fun _ _ _ _ => 30, none, some [(1, some 0)], fun _ => 0⟩

/-- Concrete scheduler state for claim C1. -/
def stC1 : SchedState := ⟨[1], [], [1], fun _ => 0⟩

/-- Concrete grant executor for claim C1: grants seven bytes and reports
the flow inactive. -/
def execC1 : ℕ → ℕ → GrantResponse := fun _ _ => ⟨7, false, false, true⟩

/-- Concrete hybrid pass inputs for claim C1: a downlink flow whose queue
is empty. -/
def henvC1 : HybridEnv :=
  ⟨Direction.DL, fun c => c, fun _ => 1, fun _ => 0, none,
   fun _ _ => ⟨[1], [0], [0], []⟩, fun _ _ _ => 1, fun _ _ _ _ => 1,
   none, 1, 1, fun _ => 0⟩

/-- Claim C1, counterexample: in LyapunovScheduler.cc a flow with zero
queue backlog receives score zero but is still pushed into the priority
ordering and still receives a requestGrant call during the drain loop, so
it is not excluded from the grant ordering. -/
theorem claim_c1_counterexample :
    flowBacklog envC1 1 = 0
    ∧ (prepareSchedule envC1 stC1).2 = [(1, 0)]
    ∧ (drainFuel execC1 3 (buildQueue (prepareSchedule envC1 stC1).2)
        (fun _ => 0) (prepareSchedule envC1 stC1).1).map Prod.snd
      = some [(1, 0, 7)] := by
  refine ⟨rfl, ?_, ?_⟩
  · with_unfolding_all rfl
  · with_unfolding_all rfl

/-- Claim C1, amended: a flow with zero backlog or zero achievable rate
receives a base score of exactly zero in LyapunovScheduler.cc, but it is
not excluded there: every scored entry carries the base score plus only
the tie-break perturbation, so such a flow enters the ordering with score
equal to its perturbation and can receive a grant request.  The exclusion
holds in the hybrid scheduler of the README listing, which skips flows
with zero backlog or zero rate before scoring. -/
theorem claim_c1 :
    (∀ (env : Env) (cid : ℕ),
        flowBacklog env cid = 0 ∨ flowRate env cid = 0 →
          flowBaseScore env cid = 0)
    ∧ (∀ (env : Env) (cid : ℕ) (x : ℕ × ℚ),
        scoredEntry env cid = some x →
          x = (cid, flowBaseScore env cid + env.perturbation cid))
    ∧ (∀ (env : HybridEnv) (cid : ℕ),
        hybridBacklog env cid = 0 ∨ hybridRate env cid = 0 →
          hybridScoredEntry env cid = none) := by
  refine ⟨?_, ?_, ?_⟩
  · intro env cid h
    unfold flowBaseScore
    rcases h with h | h
    · rw [if_neg]
      intro hc
      rw [h] at hc
      exact lt_irrefl 0 hc.2
    · by_cases hb : 0 < flowBlocks env cid
      · have hrate : ((flowBytes env cid : ℚ) / (flowBlocks env cid : ℚ))
            = 0 := by
          unfold flowRate at h
          rwa [if_pos hb] at h
        split_ifs with hc
        · rw [hrate]
          ring
        · rfl
      · split_ifs with hc
        · exact absurd hc.1 hb
        · rfl
  · intro env cid x h
    exact scoredEntry_eq_some h
  · intro env cid h
    unfold hybridScoredEntry
    simp only
    split_ifs with h1 h2 h3 h4
    · rfl
    · rfl
    · rfl
    · rfl
    · exfalso
      rcases h with h | h
      · exact h2 h
      · exact h4 h

/-- Claim C1, witness: the amended theorem applied to the concrete inputs
of the counterexample and to a hybrid pass with an empty queue. -/
theorem claim_c1_witness :
    flowBaseScore envC1 1 = 0
    ∧ ((1 : ℕ), (0 : ℚ))
        = (1, flowBaseScore envC1 1 + envC1.perturbation 1)
    ∧ hybridScoredEntry henvC1 5 = none :=
  ⟨claim_c1.1 envC1 1 (Or.inl rfl),
   claim_c1.2.1 envC1 1 ((1 : ℕ), (0 : ℚ)) (by with_unfolding_all rfl),
   claim_c1.2.2 henvC1 5 (Or.inl rfl)⟩

/-- Concrete pass inputs for claim C2: one flow whose node identifier is
NODEID_NONE, in a pass whose BSR virtual buffer map is present. -/
def envC2 : Env :=
  ⟨Direction.DL, fun _ => 0, fun _ => 0, fun _ => 1,
   fun _ _ => ⟨[1], [0], [0], []⟩, fun _ => 0,
   fun _ _ _ => 1, fun _ _ _ _ => 1, none, some [], fun _ => 0⟩

/-- Concrete scheduler state for claim C2. -/
def stC2 : SchedState := ⟨[1], [], [1], fun _ => 0⟩

/-- Concrete grant executor for claim C2. -/
def execC2 : ℕ → ℕ → GrantResponse := fun _ _ => ⟨0, true, true, true⟩

/-- Claim C2, counterexample: the gathering phase of prepareSchedule
erases a flow with unresolvable identity from the authoritative active
connection set itself, before commitSchedule runs: starting from the
authoritative set containing exactly flow 1, the set is already empty
when the gathering phase ends. -/
theorem claim_c2_counterexample :
    (prepareSchedule envC2 stC2).1.activeConnectionSet = []
    ∧ stC2.activeConnectionSet = [1] :=
  ⟨rfl, rfl⟩

/-- Claim C2, amended: during a pass the authoritative active connection
set only shrinks, and the only entries removed from it before commit are
flows with unresolvable network identity (the departed-user removal of the
gathering phase); the drain loop touches only the working copy and the
carrier set, leaving the authoritative set unchanged, and commitSchedule
replaces the authoritative set by the working copy. -/
theorem claim_c2 :
    (∀ (env : Env) (st : SchedState),
        (prepareSchedule env st).1.activeConnectionSet
          ⊆ st.activeConnectionSet)
    ∧ (∀ (env : Env) (st : SchedState) (x : ℕ),
        x ∈ st.activeConnectionSet →
          x ∉ (prepareSchedule env st).1.activeConnectionSet →
            flowBad env x = true)
    ∧ (∀ (exec : ℕ → ℕ → GrantResponse) (fuel : ℕ) (q : List (ℕ × ℚ))
        (calls : ℕ → ℕ) (st : SchedState)
        (res : SchedState × List (ℕ × ℚ × ℕ)),
        drainFuel exec fuel q calls st = some res →
          res.1.activeConnectionSet = st.activeConnectionSet)
    ∧ (∀ st : SchedState,
        (commitSchedule st).activeConnectionSet
          = st.activeConnectionTempSet) := by
  refine ⟨?_, ?_, ?_, ?_⟩
  · intro env st
    unfold prepareSchedule
    cases hvb : env.virtualBuffers with
    | none => exact List.Subset.refl _
    | some vb => exact scoringLoop_active_subset env _ _
  · intro env st x hxin hxout
    by_cases hbad : flowBad env x
    · exact hbad
    · exfalso
      apply hxout
      unfold prepareSchedule
      cases hvb : env.virtualBuffers with
      | none => exact hxin
      | some vb =>
          exact scoringLoop_good_active env (Bool.eq_false_iff.mpr hbad) _ _
            hxin
  · intro exec fuel q calls st res h
    exact (drainFuel_spec exec fuel q calls st res h).1
  · intro st
    rfl

/-- Claim C2, witness: the amended theorem applied to the concrete inputs
of the counterexample and to a concrete drain step. -/
theorem claim_c2_witness :
    (prepareSchedule envC2 stC2).1.activeConnectionSet
      ⊆ stC2.activeConnectionSet
    ∧ flowBad envC2 1 = true
    ∧ stC2.activeConnectionSet = stC2.activeConnectionSet
    ∧ (commitSchedule stC2).activeConnectionSet
      = stC2.activeConnectionTempSet :=
  ⟨claim_c2.1 envC2 stC2,
   claim_c2.2.1 envC2 stC2 1 (by decide) (by decide),
   claim_c2.2.2.1 execC2 1 [] (fun _ => 0) stC2 (stC2, []) rfl,
   claim_c2.2.2.2 stC2⟩

/-- QoS context of the strict-priority flow in the claim C5
counterexample: QFI 4 (URLLC class) with a very low priority level. -/
def ctxC5 : QfiContext := ⟨4, 1, 50, 100, false⟩

/-- Context manager for claim C5: flow 1 carries QFI 4, flow 2 has no
registered QFI. -/
def mgrC5 : QfiContextManager :=
  ⟨fun c => if c = 1 then 4 else -1,
   fun q => if q = 4 then some ctxC5 else none⟩

/-- Concrete hybrid pass inputs for claim C5: two downlink flows with one
queued byte each and identical channels (one block, one byte). -/
def envC5 : HybridEnv :=
  ⟨Direction.DL, fun c => c, fun _ => 1, fun _ => 1, none,
   fun _ _ => ⟨[1], [0], [0], []⟩, fun _ _ _ => 1, fun _ _ _ _ => 1,
   some mgrC5, 1, 1, fun _ => 0⟩

theorem hybridWeight_envC5_1 :
    hybridWeight envC5 1 = (2 : ℚ) ^ ((9 : ℤ) - 50) := by
  show computeQosWeightFromContextHybrid ctxC5 = _
  simp only [computeQosWeightFromContextHybrid, ctxC5]
  norm_num

theorem hybridFinalScore_envC5_1 :
    hybridFinalScore envC5 1 = 244140625 / 536870912 := by
  have hstrict : isStrictFlow envC5 1 = true := rfl
  have hbl : hybridBacklog envC5 1 = 1 := rfl
  have hrt : hybridRate envC5 1 = (1 : ℚ) / 1 := rfl
  unfold hybridFinalScore hybridBaseScore
  rw [hstrict, hbl, hrt, hybridWeight_envC5_1]
  show (1 : ℚ) ^ 1 * (1 / 1) * ((2 : ℚ) ^ ((9 : ℤ) - 50)) ^ 1
      * strictPriorityMultiplier + 0 = _
  unfold strictPriorityMultiplier
  norm_num

theorem hybridFinalScore_envC5_2 : hybridFinalScore envC5 2 = 1 := by
  have hstrict : isStrictFlow envC5 2 = false := rfl
  have hbl : hybridBacklog envC5 2 = 1 := rfl
  have hrt : hybridRate envC5 2 = (1 : ℚ) / 1 := rfl
  have hw : hybridWeight envC5 2 = 1 := rfl
  unfold hybridFinalScore hybridBaseScore
  rw [hstrict, hbl, hrt, hw]
  show (1 : ℚ) ^ 1 * (1 / 1) * (1 : ℚ) ^ 1 + 0 = 1
  norm_num

theorem hybridScoredList_envC5 :
    hybridScoredList envC5 [1, 2]
      = [(1, 244140625 / 536870912), (2, 1)] := by
  have h1 : hybridScoredEntry envC5 1 = some (1, hybridFinalScore envC5 1) := by
    unfold hybridScoredEntry
    rw [if_neg, if_neg, if_neg, if_neg]
    · rw [show hybridRate envC5 1 = (1 : ℚ) / 1 from rfl]
      norm_num
    · show ¬ ((hybridInfo envC5 1).cqiVector.isEmpty
          || (hybridInfo envC5 1).bands.isEmpty) = true
      rw [show hybridInfo envC5 1 = ⟨[1], [0], [0], []⟩ from rfl]
      simp
    · rw [show hybridBacklog envC5 1 = 1 from rfl]
      norm_num
    · simp [envC5, NODEID_NONE]
  have h2 : hybridScoredEntry envC5 2 = some (2, hybridFinalScore envC5 2) := by
    unfold hybridScoredEntry
    rw [if_neg, if_neg, if_neg, if_neg]
    · rw [show hybridRate envC5 2 = (1 : ℚ) / 1 from rfl]
      norm_num
    · show ¬ ((hybridInfo envC5 2).cqiVector.isEmpty
          || (hybridInfo envC5 2).bands.isEmpty) = true
      rw [show hybridInfo envC5 2 = ⟨[1], [0], [0], []⟩ from rfl]
      simp
    · rw [show hybridBacklog envC5 2 = 1 from rfl]
      norm_num
    · simp [envC5, NODEID_NONE]
  unfold hybridScoredList
  rw [List.filterMap_cons, h1, List.filterMap_cons, h2,
    List.filterMap_nil, hybridFinalScore_envC5_1, hybridFinalScore_envC5_2]

/-- Claim C5, counterexample: with the strict-priority multiplier
configured (QFI 4 scores multiplied by ten to the twelfth), a
strict-priority flow with positive score is not always granted before a
non-strict flow with positive score: with both flows holding one queued
byte on identical channels and the QFI 4 flow at priority level 50, the
non-strict flow 2 has the larger final score and is served first in the
drain ordering. -/
theorem claim_c5_counterexample :
    isStrictFlow envC5 1 = true
    ∧ isStrictFlow envC5 2 = false
    ∧ 0 < hybridFinalScore envC5 1
    ∧ 0 < hybridFinalScore envC5 2
    ∧ hybridDrainOrder envC5 [1, 2]
        = [(2, 1), (1, 244140625 / 536870912)] := by
  refine ⟨rfl, rfl, ?_, ?_, ?_⟩
  · rw [hybridFinalScore_envC5_1]
    norm_num
  · rw [hybridFinalScore_envC5_2]
    norm_num
  · unfold hybridDrainOrder
    rw [hybridScoredList_envC5]
    rw [show ∀ a b : ℕ × ℚ, List.insertionSort scoreRel [a, b]
        = List.orderedInsert scoreRel a (List.orderedInsert scoreRel b [])
      from fun a b => rfl]
    rw [List.orderedInsert, List.orderedInsert]
    rw [if_neg]
    · rfl
    · show ¬ scoreRel (1, 244140625 / 536870912) (2, 1)
      unfold scoreRel
      norm_num

/-- Claim C5, amended: the drain ordering of the hybrid scheduler serves
flows in non-increasing final score order; a strict-priority flow is
served before a non-strict flow exactly when its boosted score (base score
times ten to the twelfth, plus perturbation) exceeds the other score — in
particular whenever the non-strict base score is not more than a trillion
times the strict base score minus the perturbation gap, but not
unconditionally; and among strict-priority flows the multiplier preserves
the order of the underlying base scores. -/
theorem claim_c5 :
    (∀ (env : HybridEnv) (carrier : List ℕ),
        List.Sorted scoreRel (hybridDrainOrder env carrier))
    ∧ (∀ (env : HybridEnv) (a b : ℕ),
        isStrictFlow env a = true → isStrictFlow env b = false →
        hybridBaseScore env b + env.perturbation b
          < hybridBaseScore env a * strictPriorityMultiplier
            + env.perturbation a →
        hybridFinalScore env b < hybridFinalScore env a)
    ∧ (∀ (env : HybridEnv) (a b : ℕ),
        isStrictFlow env a = true → isStrictFlow env b = true →
        hybridBaseScore env a * strictPriorityMultiplier
            + env.perturbation a
          < hybridBaseScore env b * strictPriorityMultiplier
            + env.perturbation b →
        hybridFinalScore env a < hybridFinalScore env b) := by
  refine ⟨?_, ?_, ?_⟩
  · intro env carrier
    exact List.sorted_insertionSort scoreRel _
  · intro env a b ha hb h
    unfold hybridFinalScore
    rw [ha, hb]
    simpa using h
  · intro env a b ha hb h
    unfold hybridFinalScore
    rw [ha, hb]
    simpa using h

/-- QoS context of the strict-priority flows in the claim C5 witness. -/
def ctxC5b : QfiContext := ⟨4, 1, 1, 5, true⟩

/-- Context manager for the claim C5 witness: flows 1 and 3 carry QFI 4,
flow 2 has no registered QFI. -/
def mgrC5b : QfiContextManager :=
  ⟨fun c => if c = 1 then 4 else if c = 3 then 4 else -1,
   fun q => if q = 4 then some ctxC5b else none⟩

/-- Concrete hybrid pass inputs for the claim C5 witness: flow 1 holds two
queued bytes, every other flow one. -/
def henvC5b : HybridEnv :=
  ⟨Direction.DL, fun c => c, fun _ => 1,
   fun c => if c = 1 then 2 else 1, none,
   fun _ _ => ⟨[1], [0], [0], []⟩, fun _ _ _ => 1, fun _ _ _ _ => 1,
   some mgrC5b, 1, 1, fun _ => 0⟩

theorem qosWeightHybrid_ctxC5b :
    computeQosWeightFromContextHybrid ctxC5b = 5120 := by
  simp only [computeQosWeightFromContextHybrid, ctxC5b]
  norm_num

theorem hybridBaseScore_henvC5b_1 : hybridBaseScore henvC5b 1 = 10240 := by
  show hybridBacklog henvC5b 1 ^ 1 * hybridRate henvC5b 1
      * hybridWeight henvC5b 1 ^ 1 = 10240
  rw [show hybridBacklog henvC5b 1 = 2 from rfl,
    show hybridRate henvC5b 1 = (1 : ℚ) / 1 from rfl,
    show hybridWeight henvC5b 1 = computeQosWeightFromContextHybrid ctxC5b
      from rfl, qosWeightHybrid_ctxC5b]
  norm_num

theorem hybridBaseScore_henvC5b_2 : hybridBaseScore henvC5b 2 = 1 := by
  show hybridBacklog henvC5b 2 ^ 1 * hybridRate henvC5b 2
      * hybridWeight henvC5b 2 ^ 1 = 1
  rw [show hybridBacklog henvC5b 2 = 1 from rfl,
    show hybridRate henvC5b 2 = (1 : ℚ) / 1 from rfl,
    show hybridWeight henvC5b 2 = 1 from rfl]
  norm_num

theorem hybridBaseScore_henvC5b_3 : hybridBaseScore henvC5b 3 = 5120 := by
  show hybridBacklog henvC5b 3 ^ 1 * hybridRate henvC5b 3
      * hybridWeight henvC5b 3 ^ 1 = 5120
  rw [show hybridBacklog henvC5b 3 = 1 from rfl,
    show hybridRate henvC5b 3 = (1 : ℚ) / 1 from rfl,
    show hybridWeight henvC5b 3 = computeQosWeightFromContextHybrid ctxC5b
      from rfl, qosWeightHybrid_ctxC5b]
  norm_num

/-- Claim C5, witness: the amended theorem applied to a concrete hybrid
pass with two strict-priority flows and one plain flow. -/
theorem claim_c5_witness :
    List.Sorted scoreRel (hybridDrainOrder henvC5b [1, 2, 3])
    ∧ hybridFinalScore henvC5b 2 < hybridFinalScore henvC5b 1
    ∧ hybridFinalScore henvC5b 3 < hybridFinalScore henvC5b 1 :=
  ⟨claim_c5.1 henvC5b [1, 2, 3],
   claim_c5.2.1 henvC5b 1 2 rfl rfl
     (by
       rw [hybridBaseScore_henvC5b_1, hybridBaseScore_henvC5b_2,
         show henvC5b.perturbation 1 = 0 from rfl,
         show henvC5b.perturbation 2 = 0 from rfl]
       unfold strictPriorityMultiplier
       norm_num),
   claim_c5.2.2 henvC5b 3 1 rfl rfl
     (by
       rw [hybridBaseScore_henvC5b_1, hybridBaseScore_henvC5b_3,
         show henvC5b.perturbation 1 = 0 from rfl,
         show henvC5b.perturbation 3 = 0 from rfl]
       unfold strictPriorityMultiplier
       norm_num)⟩

theorem prepareSchedule_eq_of_some {env : Env} {vb : List (ℕ × Option ℚ)}
    (hvb : env.virtualBuffers = some vb) (st : SchedState) :
    prepareSchedule env st
      = scoringLoop env st.carrierActiveConnectionSet
          { st with grantedBytes := fun _ => 0,
                    activeConnectionTempSet := st.activeConnectionSet } := by
  unfold prepareSchedule
  rw [hvb]

/-- Claim C6: after a full pass (one whose BSR virtual buffer map is
present), the committed active connection set is a subset of the
authoritative active set at pass start, and a flow of the carrier set
whose identity is unresolvable (resolved as departed) is not in the
committed set: the pass only removes flow identifiers and the commit does
not re-acquire departed flows. -/
theorem claim_c6 (env : Env) (exec : ℕ → ℕ → GrantResponse) (fuel : ℕ)
    (st : SchedState) (l : List ℕ)
    (hvb : env.virtualBuffers.isSome = true)
    (hpass : (schedulePass env exec fuel st).map
        (fun r => r.1.activeConnectionSet) = some l) :
    l ⊆ st.activeConnectionSet
    ∧ ∀ x ∈ st.carrierActiveConnectionSet,
        flowBad env x = true → x ∉ l := by
  obtain ⟨res, hres, hfl⟩ := Option.map_eq_some'.mp hpass
  unfold schedulePass at hres
  simp only at hres
  obtain ⟨p, hp, hpe⟩ := Option.map_eq_some'.mp hres
  obtain ⟨vb, hvbv⟩ := Option.isSome_iff_exists.mp hvb
  have hprep := prepareSchedule_eq_of_some hvbv st
  have hspec := drainFuel_spec exec fuel _ _ _ p hp
  have htempsub : p.1.activeConnectionTempSet
      ⊆ (prepareSchedule env st).1.activeConnectionTempSet := hspec.2.1
  have htemp1 : (prepareSchedule env st).1.activeConnectionTempSet
      ⊆ st.activeConnectionSet := by
    rw [hprep]
    exact scoringLoop_temp_subset env _ _
  have hlp : p.1.activeConnectionTempSet = l := by
    rw [← hfl, ← hpe]
    rfl
  constructor
  · rw [← hlp]
    exact htempsub.trans htemp1
  · intro x hx hb
    rw [← hlp]
    intro hmem
    have hmem2 := htempsub hmem
    rw [hprep] at hmem2
    exact scoringLoop_bad_temp env hb _ _ hx hmem2

/-- Concrete pass inputs for the claim C6 witness: flow 1 has an
unresolvable identity, flow 2 is schedulable with one queued byte. -/
def envC6 : Env :=
  ⟨Direction.DL, fun c => if c = 1 then 0 else 2, fun _ => 0, fun _ => 1,
   fun _ _ => ⟨[1], [0], [0], [0, 0]⟩, fun _ => 0,
   fun _ _ _ => 1, fun _ _ _ _ => 1, none, some [(2, some 1)], fun _ => 0⟩

/-- Concrete scheduler state for the claim C6 witness. -/
def stC6 : SchedState := ⟨[1, 2], [], [1, 2], fun _ => 0⟩

/-- Concrete grant executor for the claim C6 witness: reports the flow
still active but ineligible. -/
def execC6 : ℕ → ℕ → GrantResponse := fun _ _ => ⟨5, false, true, false⟩

/-- Claim C6, witness: the theorem applied to the concrete pass, whose
committed active set is exactly the list containing flow 2. -/
theorem claim_c6_witness :
    [2] ⊆ stC6.activeConnectionSet ∧ (1 : ℕ) ∉ ([2] : List ℕ) :=
  ⟨(claim_c6 envC6 execC6 3 stC6 [2] rfl (by with_unfolding_all rfl)).1,
   (claim_c6 envC6 execC6 3 stC6 [2] rfl (by with_unfolding_all rfl)).2
     1 (by decide) rfl⟩

/-- Claim C7: the drain loop serves grant requests in non-increasing order
of the stored scores, and hence, when every tie-break perturbation is at
most scoreEpsilon in magnitude, the base score of an earlier-served flow
is at least the base score of any later-served flow minus twice
scoreEpsilon. -/
theorem claim_c7 (env : Env) (st : SchedState)
    (exec : ℕ → ℕ → GrantResponse) (fuel : ℕ)
    (res : SchedState × List (ℕ × ℚ × ℕ))
    (hdrain : drainFuel exec fuel (buildQueue (prepareSchedule env st).2)
        (fun _ => 0) (prepareSchedule env st).1 = some res)
    (hpert : ∀ c, |env.perturbation c| ≤ scoreEpsilon) :
    List.Pairwise
      (fun a b : ℕ × ℚ × ℕ => b.2.1 ≤ a.2.1
        ∧ flowBaseScore env b.1 ≤ flowBaseScore env a.1 + 2 * scoreEpsilon)
      res.2 := by
  have hspec := drainFuel_spec exec fuel _ _ _ res hdrain
  have hpw := hspec.2.2.2 (buildQueue_sorted (prepareSchedule env st).2)
  have hchar : ∀ e ∈ res.2,
      e.2.1 = flowBaseScore env e.1 + env.perturbation e.1 := by
    intro e he
    have h1 := hspec.2.2.1 e he
    have h2 := mem_buildQueue.mp h1
    have h3 := prepareSchedule_snd_mem h2
    exact congrArg Prod.snd h3
  refine List.Pairwise.imp_of_mem ?_ hpw
  intro a b ha hb hle
  refine ⟨hle, ?_⟩
  have hca := hchar a ha
  have hcb := hchar b hb
  rw [hca, hcb] at hle
  have hpa := abs_le.mp (hpert a.1)
  have hpb := abs_le.mp (hpert b.1)
  linarith [hpa.1, hpa.2, hpb.1, hpb.2]

/-- Concrete pass inputs for the claim C7 witness: one downlink flow with
four queued bytes and a channel of two blocks and ten bytes. -/
def envC7 : Env :=
  ⟨Direction.DL, fun _ => 1, fun _ => 0, fun _ => 1,
   fun _ _ => ⟨[1], [0], [0], [0, 0]⟩, fun _ => 0,
   fun _ _ _ => 2, fun _ _ _ _ => 10, none, some [(1, some 4)], fun _ => 0⟩

/-- Concrete scheduler state for the claim C7 witness. -/
def stC7 : SchedState := ⟨[1], [], [1], fun _ => 0⟩

/-- Concrete grant executor for the claim C7 witness. -/
def execC7 : ℕ → ℕ → GrantResponse := fun _ _ => ⟨3, false, false, true⟩

/-- Claim C7, witness: the theorem applied to the concrete pass. -/
theorem claim_c7_witness :
    List.Pairwise
      (fun a b : ℕ × ℚ × ℕ => b.2.1 ≤ a.2.1
        ∧ flowBaseScore envC7 b.1
            ≤ flowBaseScore envC7 a.1 + 2 * scoreEpsilon)
      ((drainFuel execC7 3 (buildQueue (prepareSchedule envC7 stC7).2)
        (fun _ => 0) (prepareSchedule envC7 stC7).1).getD default).2 :=
  claim_c7 envC7 stC7 execC7 3
    ((drainFuel execC7 3 (buildQueue (prepareSchedule envC7 stC7).2)
      (fun _ => 0) (prepareSchedule envC7 stC7).1).getD default)
    (by with_unfolding_all rfl)
    (fun c => by
      show |(0 : ℚ)| ≤ scoreEpsilon
      rw [abs_zero]
      unfold scoreEpsilon
      norm_num)

/-- Claim C8: a missing QoS context is not an error and yields the neutral
weight exactly 1: the context lookup returns nothing when the manager is
absent, when no QFI is registered for the connection identifier, or when
the manager holds no context for the QFI, and in each such case both
schedulers use QoS weight 1. -/
theorem claim_c8 :
    (∀ cid : ℕ, getQfiContextForCid none cid = none)
    ∧ (∀ (m : QfiContextManager) (cid : ℕ), m.getQfiForCid cid < 0 →
        getQfiContextForCid (some m) cid = none)
    ∧ (∀ (m : QfiContextManager) (cid : ℕ),
        m.getContextByQfi (m.getQfiForCid cid) = none →
        getQfiContextForCid (some m) cid = none)
    ∧ (∀ (env : Env) (cid : ℕ),
        getQfiContextForCid env.qfiMgr cid = none →
        flowQosWeight env cid = 1)
    ∧ (∀ (env : HybridEnv) (cid : ℕ),
        getQfiContextForCid env.qfiMgr cid = none →
        hybridWeight env cid = 1) := by
  refine ⟨fun _ => rfl, ?_, ?_, ?_, ?_⟩
  · intro m cid h
    unfold getQfiContextForCid
    simp only
    rw [if_pos h]
  · intro m cid h
    unfold getQfiContextForCid
    simp only
    split_ifs with h0
    · rfl
    · exact h
  · intro env cid h
    unfold flowQosWeight
    rw [h]
  · intro env cid h
    unfold hybridWeight
    rw [h]

/-- Context manager for the claim C8 witness with no registered QFI. -/
def mgrC8 : QfiContextManager :=
  ⟨fun _ => -1, fun _ => some ⟨1, 1, 1, 1, false⟩⟩

/-- Context manager for the claim C8 witness with a registered QFI but no
context for it. -/
def mgrC8b : QfiContextManager := ⟨fun _ => 0, fun _ => none⟩

/-- Claim C8, witness: the theorem applied to concrete managers and to the
concrete passes of claim C1. -/
theorem claim_c8_witness :
    getQfiContextForCid none 7 = none
    ∧ getQfiContextForCid (some mgrC8) 7 = none
    ∧ getQfiContextForCid (some mgrC8b) 7 = none
    ∧ flowQosWeight envC1 1 = 1
    ∧ hybridWeight henvC1 1 = 1 :=
  ⟨claim_c8.1 7,
   claim_c8.2.1 mgrC8 7 (by decide),
   claim_c8.2.2.1 mgrC8b 7 rfl,
   claim_c8.2.2.2.1 envC1 1 rfl,
   claim_c8.2.2.2.2 henvC1 1 rfl⟩

/-- Claim C9: the scoring step is deterministic on unchanged inputs: with
the tie-break draws held fixed, running the gathering phase a second time
on the state left by the first run produces exactly the same scored list,
and hence the same priority ordering. -/
theorem claim_c9 (env : Env) (st : SchedState) :
    (prepareSchedule env (prepareSchedule env st).1).2
      = (prepareSchedule env st).2
    ∧ buildQueue (prepareSchedule env (prepareSchedule env st).1).2
      = buildQueue (prepareSchedule env st).2 := by
  have hmain : (prepareSchedule env (prepareSchedule env st).1).2
      = (prepareSchedule env st).2 := by
    cases hvb : env.virtualBuffers with
    | none =>
        unfold prepareSchedule
        rw [hvb]
    | some vb =>
        have e1 := prepareSchedule_eq_of_some hvb st
        have e2 := prepareSchedule_eq_of_some hvb (prepareSchedule env st).1
        rw [e2, e1, scoringLoop_snd, scoringLoop_snd]
        obtain ⟨p, hpcar, hpm⟩ :=
          scoringLoop_carrier_filter env st.carrierActiveConnectionSet
            { st with grantedBytes := fun _ => 0,
                      activeConnectionTempSet := st.activeConnectionSet }
        rw [hpcar]
        exact filterMap_filter_of_none (scoredEntry env) p
          st.carrierActiveConnectionSet
          (fun x _ hpx => scoredEntry_of_bad (hpm x hpx))
  exact ⟨hmain, by rw [hmain]⟩

/-- Claim C10: the drain loop terminates on every finite scoring queue
with pairwise distinct identifiers, under the precondition that for each
flow some requestGrant call is answered with terminate, inactive or
ineligible: the explicit fuel bound of one call per flow up to its stop
index plus one suffices for the loop to finish. -/
theorem claim_c10 (exec : ℕ → ℕ → GrantResponse) (q : List (ℕ × ℚ))
    (st : SchedState) (S : ℕ → ℕ)
    (hnd : (q.map Prod.fst).Nodup)
    (hstop : ∀ c ∈ q.map Prod.fst, stopSignal (exec c (S c)) = true) :
    (drainFuel exec ((q.map (fun e => S e.1 + 1)).sum + 1) q
      (fun _ => 0) st).isSome = true := by
  apply drainFuel_total exec S _ q (fun _ => 0) st hnd hstop
  · intro c _
    exact Nat.zero_le _
  · have heq : (q.map (fun e => S e.1 + 1 - (fun _ : ℕ => 0) e.1)).sum
        = (q.map (fun e => S e.1 + 1)).sum := by
      simp
    rw [heq]
    exact Nat.lt_succ_self _

/-- Concrete grant executor for the claim C10 witness: always reports the
flow inactive. -/
def execC10 : ℕ → ℕ → GrantResponse := fun _ _ => ⟨0, false, false, true⟩

/-- Stop-index function for the claim C10 witness. -/
def SC10 : ℕ → ℕ := fun _ => 0

/-- Claim C10, witness: the theorem applied to a one-entry queue. -/
theorem claim_c10_witness :
    (drainFuel execC10
      (([((1 : ℕ), (0 : ℚ))].map (fun e => SC10 e.1 + 1)).sum + 1)
      [((1 : ℕ), (0 : ℚ))] (fun _ => 0) default).isSome = true :=
  claim_c10 execC10 [((1 : ℕ), (0 : ℚ))] default SC10 (by decide)
    (by decide)

end LyapunovScheduler
